import Mathlib

/-!
Verification development for the gemini-deep-research repository.

The definitions below are a shallow embedding of the asynchronous research
orchestration layer of the repository:

* `DeepResearchAgent.research`, `pollForCompletion`, `refineWithThinking` and
  `buildResearchInput` live in `src/web/public/app.js` (the bundled copy of
  `src/lib/deep-research.ts`, lines 2556-3039).  Network calls (axios
  create / poll / generateContent) are modelled by an explicit environment
  (`RemoteEnv`) that scripts each remote answer; wall-clock time is modelled
  by explicit elapsed-millisecond counters advanced by the poll sleep
  (`POLL_INTERVAL`) plus a per-call extra delay.
* The HTTP route layer (`router.get/post/delete` over the in-memory
  `researchResults` map) lives in `src/unnamed/part_001` and, in the revision
  that additionally has the cancel endpoint, inside
  `src/developers_readme.md` (lines 95-608).  The JS `Map` is modelled as an
  association list with JS `Map` semantics (insertion order preserved,
  `set` replaces in place).
-/

/-- Events delivered to the `onEvent` callback of `DeepResearchAgent.research`
(the `type` field of `ResearchEvent` together with the data payload that the
code attaches; timestamps are not modelled). -/
inductive REvent where
  | start : REvent
  | progress (p : Nat) : REvent
  | content (c : String) : REvent
  | complete : REvent
  | error (e : String) : REvent
deriving DecidableEq, Repr

/-- Return value of `pollForCompletion`
(`{ status; content; sources?; error? }`, sources not modelled). -/
structure PollOutcome where
  status : String
  content : String
  error : Option String
deriving DecidableEq, Repr

/-- One scripted answer of the remote service to an `axios.get` poll:
either an interaction object (its `status`/`state` string, the `text` field
of each entry of `outputs` with the empty string standing for an absent or
empty text, and `error.message` when present), or a thrown transport error
(axios rejection or the explicit non-2xx `throw`). -/
inductive PollResponse where
  | ok (status : String) (outputs : List String) (errMsg : Option String)
  | transportError (msg : String)
deriving DecidableEq, Repr

/-- One iteration of the polling loop: the scripted remote answer plus the
wall-clock milliseconds the HTTP round trip itself takes on top of the
`sleep(POLL_INTERVAL)`. -/
structure PollStep where
  extraDelay : Nat
  response : PollResponse
deriving DecidableEq, Repr

/-- Result of running the polling loop: the events it emitted, the value it
produced (`none` when the script ran out before the loop finished - an
under-determined run, no counterpart in the code - `some (.error m)` when the
loop threw, `some (.ok o)` when it returned), and how many `axios.get` status
polls were issued. -/
structure PollRun where
  events : List REvent
  result : Option (Except String PollOutcome)
  polls : Nat
deriving Repr

/-- Constant `MAX_RESEARCH_TIME = 60 * 60 * 1000` (60 minutes, app.js:2559). -/
def MAX_RESEARCH_TIME : Nat := 60 * 60 * 1000

/-- Constant `POLL_INTERVAL = 10000` (app.js:2558). -/
def POLL_INTERVAL : Nat := 10000

/-- The value `pollForCompletion` returns when the while-loop falls through
the 60-minute deadline (app.js:2837-2841). -/
def timeoutOutcome : PollOutcome :=
  { status := "failed", content := "", error := some "Research timed out after 60 minutes" }

/-- Shallow embedding of `DeepResearchAgent.pollForCompletion`
(app.js:2773-2842).  `elapsed` is `Date.now() - startTime` at the loop head;
`progressPercent` starts at 10 in the code.  Each iteration sleeps, issues a
GET (consuming one `PollStep`), emits a `progress` event with
`min(progressPercent + 10, 90)`, and then branches on the remote status
exactly as the source does. -/
def pollForCompletion (steps : List PollStep) (elapsed progressPercent : Nat) : PollRun :=
  if MAX_RESEARCH_TIME ≤ elapsed then
    { events := [], result := some (.ok timeoutOutcome), polls := 0 }
  else
    match steps with
    | [] => { events := [], result := none, polls := 0 }
    | step :: rest =>
      match step.response with
      | .transportError msg => { events := [], result := some (.error msg), polls := 1 }
      | .ok status outputs errMsg =>
        let p := min (progressPercent + 10) 90
        if status = "completed" ∨ status = "COMPLETED" then
          let texts := outputs.filter (fun s => !(s == ""))
          let joined := String.intercalate "\n\n" texts
          let content := if joined = "" then "Research completed but no content returned" else joined
          { events := [.progress p, .content content, .complete],
            result := some (.ok { status := "completed", content := content, error := none }),
            polls := 1 }
        else if status = "failed" ∨ status = "FAILED" then
          { events := [.progress p],
            result := some (.ok { status := "failed", content := "",
                                  error := some (errMsg.getD "Research failed") }),
            polls := 1 }
        else
          let pr := pollForCompletion rest (elapsed + POLL_INTERVAL + step.extraDelay) p
          { events := .progress p :: pr.events, result := pr.result, polls := pr.polls + 1 }

/-- One `parts` entry of the Deep Think `generateContent` answer
(`thought` flag and `text`). -/
structure RPart where
  thought : Bool
  text : String
deriving DecidableEq, Repr

/-- Scripted outcome of the single `generateContent` call of
`refineWithThinking`: `ok (some parts)` when `result.success` holds and
`result.data.candidates[0].content.parts` is present, `ok none` when the call
returned but that chain was missing or unsuccessful, `throws` when the call
threw. -/
inductive RefineResponse where
  | ok (parts : Option (List RPart))
  | throws (msg : String)
deriving DecidableEq, Repr

/-- Shallow embedding of `DeepResearchAgent.refineWithThinking`
(app.js:2720-2768): emits `progress 95`, then either replaces the content
with the non-thought parts joined by a newline (emitting a `content` event),
or falls back to the original content on a thrown error, a missing parts
chain, or an empty answer-part list. -/
def refineWithThinking (content : String) (resp : RefineResponse) : List REvent × String :=
  match resp with
  | .throws _ => ([.progress 95], content)
  | .ok none => ([.progress 95], content)
  | .ok (some parts) =>
    let answerParts := parts.filter (fun p => !p.thought)
    if answerParts.isEmpty then ([.progress 95], content)
    else
      let refined := String.intercalate "\n" (answerParts.map (·.text))
      ([.progress 95, .content refined], refined)

/-- Scripted outcome of the `axios.post` interaction-creation call in
`research` (app.js:2635-2649): the interaction id on success, or a thrown
transport / non-2xx error. -/
inductive CreateResponse where
  | ok (interactionId : String)
  | transportError (msg : String)
deriving DecidableEq, Repr

/-- The slice of `ResearchRequest` that steers the control flow of
`research`: the query and the `options.refineWithThinking` flag. -/
structure ResearchRequest where
  query : String
  refineWithThinking : Bool
deriving DecidableEq, Repr

/-- The `ResearchResult` record stored in the registry and returned by
`research` (types.ts); absent JS fields are `none`.  `sources`, `metadata`
and the timestamps are not modelled. -/
structure ResearchResult where
  id : String
  query : String
  status : String
  progress : Option Nat := none
  content : Option String := none
  error : Option String := none
  interactionId : Option String := none
deriving DecidableEq, Repr

/-- Scripts every remote answer one `research` run consumes, plus the two
impure strings of the metadata footer (`new Date().toLocaleString()` and the
duration) and the wall-clock time the create call takes. -/
structure RemoteEnv where
  create : CreateResponse
  createDelay : Nat
  polls : List PollStep
  refine : RefineResponse
  dateStr : String
  durationStr : String
deriving Repr

/-- Result of one `research` run: the ordered events delivered to `onEvent`,
the returned `ResearchResult` (`none` when the poll script ran out), and the
number of status polls issued. -/
structure RunOutcome where
  events : List REvent
  result : Option ResearchResult
  pollsAttempted : Nat
deriving Repr

/-- The `metadataFooter` string built in `research` (app.js:2671-2679):
lines joined with a newline. -/
def metadataFooter (query modelName dateStr durationStr : String) : String :=
  String.intercalate "\n"
    ["", "---", "### Research Metadata",
     "- **Query**: " ++ query,
     "- **Date**: " ++ dateStr,
     "- **Model**: " ++ modelName,
     "- **Duration**: " ++ durationStr ++ "s"]

/-- Shallow embedding of `DeepResearchAgent.research` (app.js:2594-2715).
Emits `start`, then `progress 5`; a create failure lands in the catch branch
(error event, failed result without progress or content).  On create success
it emits `progress 10`, polls, and either rethrows a poll transport error
into the catch branch or builds the final result: optional Deep Think
refinement when completed and the flag is set, metadata footer appended to
every completed run, `progress: 100` unconditionally, and
`status = completed ? completed : failed`. -/
def research (req : ResearchRequest) (resultId : String) (env : RemoteEnv) : RunOutcome :=
  match env.create with
  | .transportError msg =>
    { events := [.start, .progress 5, .error msg],
      result := some { id := resultId, query := req.query, status := "failed", error := some msg },
      pollsAttempted := 0 }
  | .ok _ =>
    let pr := pollForCompletion env.polls env.createDelay 10
    match pr.result with
    | none =>
      { events := [.start, .progress 5, .progress 10] ++ pr.events,
        result := none,
        pollsAttempted := pr.polls }
    | some (.error msg) =>
      { events := [.start, .progress 5, .progress 10] ++ pr.events ++ [.error msg],
        result := some { id := resultId, query := req.query, status := "failed", error := some msg },
        pollsAttempted := pr.polls }
    | some (.ok outcome) =>
      let refinePair :=
        if outcome.status = "completed" ∧ req.refineWithThinking = true then
          refineWithThinking outcome.content env.refine
        else ([], outcome.content)
      let modelName :=
        if req.refineWithThinking then "Gemini 3 Pro (Deep Think)" else "Deep Research Pro Preview"
      let finalContent :=
        if outcome.status = "completed" then
          refinePair.2 ++ metadataFooter req.query modelName env.dateStr env.durationStr
        else refinePair.2
      { events := [.start, .progress 5, .progress 10] ++ pr.events ++ refinePair.1,
        result := some { id := resultId, query := req.query,
                         status := if outcome.status = "completed" then "completed" else "failed",
                         progress := some 100,
                         content := some finalContent,
                         error := outcome.error },
        pollsAttempted := pr.polls }

/-- The in-memory registry `researchResults : Map<string, ResearchResult>`
(part_001:51, developers_readme.md routes), as an association list with JS
`Map` semantics. -/
abbrev Registry : Type := List (String × ResearchResult)

/-- Lookup `researchResults.get(id)`. -/
def regGet (r : Registry) (id : String) : Option ResearchResult :=
  (List.find? (fun p => p.1 == id) r).map (·.2)

/-- Write `researchResults.set(id, v)`: replace in place when the key exists,
append otherwise. -/
def regSet : Registry → String → ResearchResult → Registry
  | [], id, v => [(id, v)]
  | (k, w) :: rest, id, v =>
    if k == id then (k, v) :: rest else (k, w) :: regSet rest id v

/-- Removal `researchResults.delete(id)`. -/
def regDelete (r : Registry) (id : String) : Registry :=
  List.filter (fun p => !(p.1 == id)) r

/-- Membership test `researchResults.has(id)`. -/
def regHas (r : Registry) (id : String) : Bool :=
  (regGet r id).isSome

/-- Response of `GET /api/research/:id` (part_001:218-233). -/
structure GetReply where
  httpStatus : Nat
  success : Bool
  errorCode : Option String
  data : Option ResearchResult
deriving DecidableEq, Repr

/-- Handler of `GET /api/research/:id` (part_001:218-233): 404 `NOT_FOUND`
when the id is absent, otherwise 200 with the stored result. -/
def getResearch (r : Registry) (id : String) : GetReply :=
  match regGet r id with
  | none => { httpStatus := 404, success := false, errorCode := some "NOT_FOUND", data := none }
  | some res => { httpStatus := 200, success := true, errorCode := none, data := some res }

/-- Response of `DELETE /api/research/:id` (part_001:239-249). -/
structure DeleteReply where
  success : Bool
  message : String
deriving DecidableEq, Repr

/-- Handler of `DELETE /api/research/:id` (part_001:239-249): removes the
entry when present, and answers `success: true` either way. -/
def deleteResearch (r : Registry) (id : String) : DeleteReply × Registry :=
  if regHas r id then
    ({ success := true, message := "Result deleted" }, regDelete r id)
  else
    ({ success := true, message := "Result not found or already deleted" }, r)

/-- Outcome of the remote `agent.cancelInteraction` call attempted by the
cancel route: resolved `true`, resolved `false`, or thrown. -/
inductive CancelRemote where
  | success
  | failure
  | throws (msg : String)
deriving DecidableEq, Repr

/-- First, synchronous half of `POST /api/research/:id/cancel`
(developers_readme.md routes, lines 341-372): the API-key guard, the 404 and
not-processing guards, and the local registry write
`research.status = "cancelled"; researchResults.set(id, research)`.  This
stage takes no remote-cancel outcome: it completes before the remote call is
attempted. -/
inductive CancelCheck where
  | noApiKey
  | notFound
  | notProcessing
  | proceed (updated : Registry) (res : ResearchResult)
deriving DecidableEq, Repr

/-- See `CancelCheck`. -/
def cancelCheckAndMark (hasApiKey : Bool) (r : Registry) (id : String) : CancelCheck :=
  if hasApiKey = false then .noApiKey
  else
    match regGet r id with
    | none => .notFound
    | some res =>
      if res.status ≠ "processing" then .notProcessing
      else
        let cancelledRes := { res with status := "cancelled" }
        .proceed (regSet r id cancelledRes) cancelledRes

/-- The advisory remote-cancel attempt of the cancel route
(developers_readme.md routes, lines 374-398): issued only when an interaction
id was captured and a live agent is registered; a resolved `false` and a
thrown error are both swallowed with a log line, so the call returns the
success flag and touches nothing else. -/
def attemptRemoteCancel (res : ResearchResult) (agentPresent : Bool)
    (remote : CancelRemote) : Bool :=
  if res.interactionId.isSome && agentPresent then
    match remote with
    | .success => true
    | .failure => false
    | .throws _ => false
  else false

/-- Response of `POST /api/research/:id/cancel`. -/
structure CancelReply where
  httpStatus : Nat
  success : Bool
  errorCode : Option String
deriving DecidableEq, Repr

/-- Handler of `POST /api/research/:id/cancel` (developers_readme.md routes,
lines 341-427): runs the synchronous stage, then the advisory remote attempt
(whose outcome affects neither the registry nor the reply), then answers
200 `success: true`. -/
def postResearchCancel (hasApiKey : Bool) (r : Registry) (id : String)
    (agentPresent : Bool) (remote : CancelRemote) : CancelReply × Registry :=
  match cancelCheckAndMark hasApiKey r id with
  | .noApiKey => ({ httpStatus := 500, success := false, errorCode := some "NO_API_KEY" }, r)
  | .notFound => ({ httpStatus := 404, success := false, errorCode := some "NOT_FOUND" }, r)
  | .notProcessing =>
    ({ httpStatus := 400, success := false, errorCode := some "NOT_PROCESSING" }, r)
  | .proceed r1 res =>
    let _advisory := attemptRemoteCancel res agentPresent remote
    ({ httpStatus := 200, success := true, errorCode := none }, r1)

/-- The unconditional registry write the background task of
`POST /api/research` performs once `await agent.research(...)` settles:
`researchResults.set(resultId, result)` on success (developers_readme.md
routes, line 281) and the analogous write in its catch branch (line 288).
Neither write checks the currently stored status first. -/
def backgroundStoreResult (r : Registry) (id : String)
    (result : ResearchResult) : Registry :=
  regSet r id result

/-- Progress payloads of the progress events of a trace, in order. -/
def progressValues : List REvent → List Nat
  | [] => []
  | .progress p :: rest => p :: progressValues rest
  | _ :: rest => progressValues rest

/-- Recognizer for `complete` events. -/
def isCompleteEv : REvent → Bool
  | .complete => true
  | _ => false

/-- Recognizer for `error` events. -/
def isErrorEv : REvent → Bool
  | .error _ => true
  | _ => false

/-- Recognizer for `progress` events. -/
def isProgressEv : REvent → Bool
  | .progress _ => true
  | _ => false

/-- Recognizer for `content` events. -/
def isContentEv : REvent → Bool
  | .content _ => true
  | _ => false

/-- The events a trace delivers strictly after its first `complete` event
(empty when no `complete` event occurs). -/
def eventsAfterFirstComplete (evs : List REvent) : List REvent :=
  (List.dropWhile (fun e => !isCompleteEv e) evs).drop 1

/-- Wall-clock milliseconds one poll iteration consumes: the
`sleep(POLL_INTERVAL)` plus the HTTP round trip of that iteration. -/
def stepDuration (s : PollStep) : Nat :=
  POLL_INTERVAL + s.extraDelay

/-- A scripted poll answer that neither terminates the loop nor throws:
an interaction object whose status is none of the four terminal spellings. -/
def nonTerminalStep (s : PollStep) : Bool :=
  match s.response with
  | .ok st _ _ =>
    !(st == "completed") && !(st == "COMPLETED") && !(st == "failed") && !(st == "FAILED")
  | .transportError _ => false

/-- A sample request with the refinement flag off. -/
def reqPlain : ResearchRequest := { query := "q", refineWithThinking := false }

/-- A sample request with the refinement flag on. -/
def reqRefine : ResearchRequest := { query := "q", refineWithThinking := true }

/-- Environment of a run whose first poll reports a remote failure. -/
def envRemoteFail : RemoteEnv :=
  { create := .ok "int1", createDelay := 0,
    polls := [{ extraDelay := 0, response := .ok "failed" [] (some "boom") }],
    refine := .ok none, dateStr := "D", durationStr := "1.0" }

/-- Environment of a run whose first poll reports completion with one output
fragment `X`. -/
def envCompleted : RemoteEnv :=
  { create := .ok "int1", createDelay := 0,
    polls := [{ extraDelay := 0, response := .ok "completed" ["X"] none }],
    refine := .ok none, dateStr := "D", durationStr := "1.0" }

/-- Environment of a completed run whose refinement call succeeds with one
non-thought part `R`. -/
def envRefineOk : RemoteEnv :=
  { create := .ok "int1", createDelay := 0,
    polls := [{ extraDelay := 0, response := .ok "completed" ["X"] none }],
    refine := .ok (some [{ thought := false, text := "R" }]),
    dateStr := "D", durationStr := "1.0" }

/-- Environment of a run completing with content `A` whose refinement call
throws a network error. -/
def envRefineThrow : RemoteEnv :=
  { create := .ok "int1", createDelay := 0,
    polls := [{ extraDelay := 0, response := .ok "completed" ["A"] none }],
    refine := .throws "network error", dateStr := "D", durationStr := "7.0" }

/-- Environment of a run whose interaction-creation call fails with an
HTTP 500 transport error. -/
def envCreateFail : RemoteEnv :=
  { create := .transportError "API error: 500 Internal Server Error",
    createDelay := 0, polls := [], refine := .ok none,
    dateStr := "D", durationStr := "0.1" }

/-- Environment of a run whose single poll answers `processing` after a round
trip so slow that the next loop-head check is past the 60-minute deadline. -/
def envDeadline : RemoteEnv :=
  { create := .ok "int1", createDelay := 0,
    polls := [{ extraDelay := 3590000, response := .ok "processing" [] none }],
    refine := .ok none, dateStr := "D", durationStr := "3600.0" }

/-- A registry entry in the `processing` state, as stored by
`POST /api/research` before the background task settles. -/
def procJob : ResearchResult :=
  { id := "j1", query := "q", status := "processing", progress := some 0 }

/-- A completed result as returned by `agent.research` and stored by the
background completion write. -/
def completedJob : ResearchResult :=
  { id := "j1", query := "q", status := "completed", progress := some 100,
    content := some "done" }

/-- A registry holding the single processing job `j1`. -/
def reg1 : Registry := [("j1", procJob)]

theorem String.length_zero_eq_empty (a : String) (h : a.length = 0) : a = "" := by
  cases a with
  | mk data => simp [String.length] at h; simp [h]

theorem intercalate_go_length (s : String) : ∀ (l : List String) (acc : String),
    acc.length ≤ (String.intercalate.go acc s l).length := by
  intro l
  induction l with
  | nil => intro acc; simp [String.intercalate.go]
  | cons a as ih =>
    intro acc
    have h1 : String.intercalate.go acc s (a :: as) = String.intercalate.go (acc ++ s ++ a) s as := by
      simp [String.intercalate.go]
    rw [h1]
    have h2 : acc.length ≤ (acc ++ s ++ a).length := by
      simp [String.length_append]
      omega
    exact le_trans h2 (ih (acc ++ s ++ a))

theorem intercalate_cons_ne_empty (s a : String) (as : List String) (ha : a ≠ "") :
    String.intercalate s (a :: as) ≠ "" := by
  intro h
  have h1 : a.length ≤ (String.intercalate s (a :: as)).length := by
    rw [String.intercalate]
    exact intercalate_go_length s as a
  rw [h] at h1
  have h2 : a.length = 0 := by simpa using h1
  exact ha (String.length_zero_eq_empty a h2)

theorem regGet_regSet (r : Registry) (id : String) (v : ResearchResult) :
    regGet (regSet r id v) id = some v := by
  induction r with
  | nil => simp [regGet, regSet]
  | cons hd tl ih =>
    obtain ⟨k, w⟩ := hd
    by_cases hk : k = id
    · simp [regSet, regGet, hk]
    · simp only [regSet]
      rw [if_neg (by simpa using hk)]
      simp only [regGet]
      rw [List.find?_cons_of_neg _ (by simpa using hk)]
      simpa [regGet] using ih

theorem regGet_regDelete (r : Registry) (id : String) :
    regGet (regDelete r id) id = none := by
  simp only [regGet, regDelete, Option.map_eq_none']
  rw [List.find?_eq_none]
  intro x hx
  have hmem := (List.mem_filter.mp hx).2
  simp only [Bool.not_eq_true'] at hmem
  simp [hmem]

theorem pollForCompletion_progress_sorted (steps : List PollStep) :
    ∀ elapsed p, p ≤ 90 →
    (progressValues (pollForCompletion steps elapsed p).events).Pairwise (· ≤ ·) ∧
    ∀ x ∈ progressValues (pollForCompletion steps elapsed p).events, p ≤ x ∧ x ≤ 90 := by
  induction steps with
  | nil =>
    intro elapsed p hp
    simp only [pollForCompletion]
    split
    · simp [progressValues]
    · simp [progressValues]
  | cons step rest ih =>
    intro elapsed p hp
    simp only [pollForCompletion]
    split
    · simp [progressValues]
    · cases hresp : step.response with
      | transportError msg => simp [progressValues]
      | ok status outputs errMsg =>
        simp only []
        split
        · simp only [progressValues]
          constructor
          · simp
          · intro x hx
            simp [progressValues] at hx
            omega
        · split
          · simp only [progressValues]
            constructor
            · simp
            · intro x hx
              simp [progressValues] at hx
              omega
          · have hrec := ih (elapsed + POLL_INTERVAL + step.extraDelay) (min (p + 10) 90) (by omega)
            simp only [progressValues]
            constructor
            · rw [List.pairwise_cons]
              exact ⟨fun x hx => (hrec.2 x hx).1, hrec.1⟩
            · intro x hx
              rcases List.mem_cons.mp hx with h | h
              · omega
              · have := hrec.2 x h
                omega

theorem pollForCompletion_classify (steps : List PollStep) :
    ∀ elapsed p,
    (∃ ps : List Nat, (pollForCompletion steps elapsed p).events = ps.map REvent.progress ∧
       ∀ o, (pollForCompletion steps elapsed p).result = some (.ok o) → o.status = "failed") ∨
    (∃ ps : List Nat, ∃ c,
       (pollForCompletion steps elapsed p).events
         = ps.map REvent.progress ++ [.content c, .complete] ∧
       (pollForCompletion steps elapsed p).result
         = some (.ok { status := "completed", content := c, error := none })) := by
  induction steps with
  | nil =>
    intro elapsed p
    simp only [pollForCompletion]
    split
    · left
      refine ⟨[], by simp, ?_⟩
      intro o ho
      simp only [Option.some.injEq, Except.ok.injEq] at ho
      rw [← ho]
      rfl
    · left
      exact ⟨[], by simp, by simp⟩
  | cons step rest ih =>
    intro elapsed p
    simp only [pollForCompletion]
    split
    · left
      refine ⟨[], by simp, ?_⟩
      intro o ho
      simp only [Option.some.injEq, Except.ok.injEq] at ho
      rw [← ho]
      rfl
    · cases hresp : step.response with
      | transportError msg =>
        left
        exact ⟨[], by simp, by simp⟩
      | ok status outputs errMsg =>
        simp only []
        split
        · right
          refine ⟨[min (p + 10) 90],
            (if String.intercalate "\n\n" (List.filter (fun s => !(s == "")) outputs) = ""
             then "Research completed but no content returned"
             else String.intercalate "\n\n" (List.filter (fun s => !(s == "")) outputs)),
            by simp, by simp⟩
        · split
          · left
            refine ⟨[min (p + 10) 90], by simp, ?_⟩
            intro o ho
            simp only [Option.some.injEq, Except.ok.injEq] at ho
            rw [← ho]
          · rcases ih (elapsed + POLL_INTERVAL + step.extraDelay) (min (p + 10) 90) with
              ⟨ps, hev, hres⟩ | ⟨ps, c, hev, hres⟩
            · left
              exact ⟨min (p + 10) 90 :: ps, by simp [hev], hres⟩
            · right
              exact ⟨min (p + 10) 90 :: ps, c, by simp [hev], hres⟩

theorem pollForCompletion_timeout (steps : List PollStep) :
    ∀ elapsed p,
    (∀ s ∈ steps, nonTerminalStep s = true) →
    MAX_RESEARCH_TIME ≤ elapsed + (steps.map stepDuration).sum →
    (pollForCompletion steps elapsed p).result = some (.ok timeoutOutcome) := by
  induction steps with
  | nil =>
    intro elapsed p _ hd
    simp only [List.map_nil, List.sum_nil, Nat.add_zero] at hd
    simp [pollForCompletion, hd]
  | cons step rest ih =>
    intro elapsed p hnt hd
    simp only [pollForCompletion]
    split
    · rfl
    · cases hresp : step.response with
      | transportError msg =>
        have := hnt step (by simp)
        simp [nonTerminalStep, hresp] at this
      | ok status outputs errMsg =>
        have hs := hnt step (by simp)
        simp only [nonTerminalStep, hresp, Bool.and_eq_true, Bool.not_eq_true',
          beq_eq_false_iff_ne, ne_eq] at hs
        simp only []
        rw [if_neg (by tauto), if_neg (by tauto)]
        apply ih
        · intro s hsm
          exact hnt s (by simp [hsm])
        · simp only [List.map_cons, List.sum_cons, stepDuration] at hd ⊢
          omega

theorem pollForCompletion_failed_error (steps : List PollStep) :
    ∀ elapsed p o,
    (pollForCompletion steps elapsed p).result = some (.ok o) → o.status = "failed" →
    (o = timeoutOutcome ∨
     ∃ step ∈ steps, ∃ st outs em, step.response = .ok st outs em ∧
       (st = "failed" ∨ st = "FAILED") ∧
       o.error = some (em.getD "Research failed") ∧ o.content = "") := by
  induction steps with
  | nil =>
    intro elapsed p o ho _
    simp only [pollForCompletion] at ho
    split at ho
    · left
      simpa using ho.symm
    · simp at ho
  | cons step rest ih =>
    intro elapsed p o ho hst
    simp only [pollForCompletion] at ho
    split at ho
    · left
      simpa using ho.symm
    · cases hresp : step.response with
      | transportError msg => simp [hresp] at ho
      | ok status outputs errMsg =>
        simp only [hresp] at ho
        split at ho
        · simp only [Option.some.injEq, Except.ok.injEq] at ho
          rw [← ho] at hst
          simp at hst
        · split at ho
          · simp only [Option.some.injEq, Except.ok.injEq] at ho
            right
            refine ⟨step, by simp, status, outputs, errMsg, hresp, by tauto, ?_, ?_⟩
            · rw [← ho]
            · rw [← ho]
          · rcases ih _ _ o ho hst with h | ⟨s, hs, rest'⟩
            · left; exact h
            · right
              exact ⟨s, by simp [hs], rest'⟩

theorem filtered_intercalate_empty_iff (outs : List String) :
    (String.intercalate "\n\n" (List.filter (fun s => !(s == "")) outs) = "")
      ↔ List.filter (fun s => !(s == "")) outs = [] := by
  constructor
  · intro h
    cases hf : List.filter (fun s => !(s == "")) outs with
    | nil => rfl
    | cons a as =>
      have ha : a ≠ "" := by
        have hm := List.mem_filter.mp (hf ▸ List.mem_cons_self a as)
        simpa using hm.2
      rw [hf] at h
      exact absurd h (intercalate_cons_ne_empty _ a as ha)
  · intro h
    rw [h]
    rfl

theorem pollForCompletion_completed_content (steps : List PollStep) :
    ∀ elapsed p o,
    (pollForCompletion steps elapsed p).result = some (.ok o) → o.status = "completed" →
    o.content ≠ "" ∧
    ∃ step ∈ steps, ∃ st outs em, step.response = .ok st outs em ∧
      (st = "completed" ∨ st = "COMPLETED") ∧
      o.content = (if List.filter (fun s => !(s == "")) outs = []
                   then "Research completed but no content returned"
                   else String.intercalate "\n\n" (List.filter (fun s => !(s == "")) outs)) := by
  induction steps with
  | nil =>
    intro elapsed p o ho hst
    simp only [pollForCompletion] at ho
    split at ho
    · simp only [Option.some.injEq, Except.ok.injEq] at ho
      rw [← ho] at hst
      simp [timeoutOutcome] at hst
    · simp at ho
  | cons step rest ih =>
    intro elapsed p o ho hst
    simp only [pollForCompletion] at ho
    split at ho
    · simp only [Option.some.injEq, Except.ok.injEq] at ho
      rw [← ho] at hst
      simp [timeoutOutcome] at hst
    · cases hresp : step.response with
      | transportError msg => simp [hresp] at ho
      | ok status outputs errMsg =>
        simp only [hresp] at ho
        split at ho
        · simp only [Option.some.injEq, Except.ok.injEq] at ho
          constructor
          · rw [← ho]
            simp only []
            split
            · decide
            · assumption
          · refine ⟨step, by simp, status, outputs, errMsg, hresp, by assumption, ?_⟩
            rw [← ho]
            simp only []
            by_cases hj : String.intercalate "\n\n" (List.filter (fun s => !(s == "")) outputs) = ""
            · rw [if_pos hj, if_pos ((filtered_intercalate_empty_iff outputs).mp hj)]
            · rw [if_neg hj, if_neg (fun hc => hj ((filtered_intercalate_empty_iff outputs).mpr hc))]
        · split at ho
          · simp only [Option.some.injEq, Except.ok.injEq] at ho
            rw [← ho] at hst
            simp at hst
          · rcases ih _ _ o ho hst with ⟨hne, s, hs, rest'⟩
            exact ⟨hne, s, by simp [hs], rest'⟩

theorem progressValues_append (l1 l2 : List REvent) :
    progressValues (l1 ++ l2) = progressValues l1 ++ progressValues l2 := by
  induction l1 with
  | nil => rfl
  | cons e rest ih => cases e <;> simp [progressValues, ih]

theorem progressValues_map_progress (ps : List Nat) :
    progressValues (ps.map REvent.progress) = ps := by
  induction ps with
  | nil => rfl
  | cons x rest ih => simp [progressValues, ih]

theorem any_isErrorEv_map_progress (ps : List Nat) :
    (ps.map REvent.progress).any isErrorEv = false := by
  induction ps with
  | nil => rfl
  | cons x rest ih => simp [isErrorEv, ih]

theorem any_isCompleteEv_map_progress (ps : List Nat) :
    (ps.map REvent.progress).any isCompleteEv = false := by
  induction ps with
  | nil => rfl
  | cons x rest ih => simp [isCompleteEv, ih]

theorem eventsAfterFirstComplete_of_no_complete (l : List REvent)
    (h : l.any isCompleteEv = false) :
    eventsAfterFirstComplete l = [] := by
  induction l with
  | nil => rfl
  | cons e rest ih =>
    simp only [List.any_cons, Bool.or_eq_false_iff] at h
    simp only [eventsAfterFirstComplete, List.dropWhile]
    rw [show (!isCompleteEv e) = true from by simp [h.1]]
    exact ih h.2

theorem eventsAfterFirstComplete_append_tail (l : List REvent) (tail : List REvent)
    (h : l.any isCompleteEv = false) :
    eventsAfterFirstComplete (l ++ .complete :: tail) = tail := by
  induction l with
  | nil => simp [eventsAfterFirstComplete, List.dropWhile, isCompleteEv]
  | cons e rest ih =>
    simp only [List.any_cons, Bool.or_eq_false_iff] at h
    simp only [eventsAfterFirstComplete, List.cons_append, List.dropWhile]
    rw [show (!isCompleteEv e) = true from by simp [h.1]]
    exact ih h.2

theorem refineWithThinking_events_shape (content : String) (resp : RefineResponse) :
    (refineWithThinking content resp).1 = [.progress 95] ∨
    ∃ c, (refineWithThinking content resp).1 = [.progress 95, .content c] := by
  cases resp with
  | throws m => left; rfl
  | ok parts =>
    cases parts with
    | none => left; rfl
    | some ps =>
      simp only [refineWithThinking]
      split
      · left; rfl
      · right; exact ⟨_, rfl⟩

theorem progress_chain_assemble (pv rv : List Nat)
    (hpv : pv.Pairwise (· ≤ ·)) (hb : ∀ x ∈ pv, 10 ≤ x ∧ x ≤ 90)
    (hrv : rv = [] ∨ rv = [95]) :
    (5 :: 10 :: (pv ++ rv)).Pairwise (· ≤ ·) := by
  have hrvp : rv.Pairwise (· ≤ ·) := by rcases hrv with h | h <;> simp [h]
  have hrvm : ∀ x ∈ rv, x = 95 := by rcases hrv with h | h <;> simp [h]
  rw [List.pairwise_cons]
  refine ⟨?_, ?_⟩
  · intro x hx
    rcases List.mem_cons.mp hx with rfl | hx'
    · omega
    rcases List.mem_append.mp hx' with h | h
    · have := hb x h; omega
    · have := hrvm x h; omega
  rw [List.pairwise_cons]
  refine ⟨?_, ?_⟩
  · intro x hx
    rcases List.mem_append.mp hx with h | h
    · exact (hb x h).1
    · have := hrvm x h; omega
  rw [List.pairwise_append]
  exact ⟨hpv, hrvp, fun a ha b hbm => by
    have h1 := hb a ha; have h2 := hrvm b hbm; omega⟩

/-- C1 (amended): over every `research` run, the progress payloads of the
emitted events are non-decreasing, and a final status of `completed` implies
a final `progress` field of 100.  The converse direction of the original
claim is refuted separately: runs returning through the non-exception path
carry `progress: 100` even when failed. -/
theorem research_progress_monotone_and_completed_gives_100
    (req : ResearchRequest) (resultId : String) (env : RemoteEnv) :
    (progressValues (research req resultId env).events).Pairwise (· ≤ ·) ∧
    (∀ res, (research req resultId env).result = some res → res.status = "completed" →
      res.progress = some 100) := by
  have hpoll := pollForCompletion_progress_sorted env.polls env.createDelay 10 (by omega)
  cases hc : env.create with
  | transportError msg =>
    refine ⟨?_, ?_⟩
    · simp [research, hc, progressValues]
    · intro res hresx hst
      simp only [research, hc, Option.some.injEq] at hresx
      rw [← hresx] at hst
      simp at hst
  | ok iid =>
    cases hres : (pollForCompletion env.polls env.createDelay 10).result with
    | none =>
      refine ⟨?_, ?_⟩
      · have he : (research req resultId env).events
            = [.start, .progress 5, .progress 10]
              ++ (pollForCompletion env.polls env.createDelay 10).events := by
          simp [research, hc, hres]
        rw [he, progressValues_append]
        have hass := progress_chain_assemble
          (progressValues (pollForCompletion env.polls env.createDelay 10).events) []
          hpoll.1 hpoll.2 (Or.inl rfl)
        simpa [progressValues] using hass
      · intro res hresx
        simp [research, hc, hres] at hresx
    | some exc =>
      cases exc with
      | error msg =>
        refine ⟨?_, ?_⟩
        · have he : (research req resultId env).events
              = [.start, .progress 5, .progress 10]
                ++ (pollForCompletion env.polls env.createDelay 10).events ++ [.error msg] := by
            simp [research, hc, hres]
          rw [he, progressValues_append, progressValues_append]
          have hass := progress_chain_assemble
            (progressValues (pollForCompletion env.polls env.createDelay 10).events) []
            hpoll.1 hpoll.2 (Or.inl rfl)
          simpa [progressValues] using hass
        · intro res hresx hst
          simp only [research, hc, hres, Option.some.injEq] at hresx
          rw [← hresx] at hst
          simp at hst
      | ok o =>
        refine ⟨?_, ?_⟩
        · by_cases hcnd : o.status = "completed" ∧ req.refineWithThinking = true
          · have he : (research req resultId env).events
                = [.start, .progress 5, .progress 10]
                  ++ (pollForCompletion env.polls env.createDelay 10).events
                  ++ (refineWithThinking o.content env.refine).1 := by
              simp [research, hc, hres, hcnd]
            rw [he, progressValues_append, progressValues_append]
            rcases refineWithThinking_events_shape o.content env.refine with h | ⟨c, h⟩ <;>
            · rw [h]
              have hass := progress_chain_assemble
                (progressValues (pollForCompletion env.polls env.createDelay 10).events) [95]
                hpoll.1 hpoll.2 (Or.inr rfl)
              simpa [progressValues] using hass
          · have he : (research req resultId env).events
                = [.start, .progress 5, .progress 10]
                  ++ (pollForCompletion env.polls env.createDelay 10).events := by
              simp [research, hc, hres, hcnd]
            rw [he, progressValues_append]
            have hass := progress_chain_assemble
              (progressValues (pollForCompletion env.polls env.createDelay 10).events) []
              hpoll.1 hpoll.2 (Or.inl rfl)
            simpa [progressValues] using hass
        · intro res hresx hst
          simp only [research, hc, hres, Option.some.injEq] at hresx
          rw [← hresx]

/-- C1 witness: the completed sample run has monotone progress events and its
final progress field is 100. -/
theorem research_progress_witness :
    (progressValues (research reqPlain "r1" envCompleted).events).Pairwise (· ≤ ·) ∧
    ∃ res, (research reqPlain "r1" envCompleted).result = some res ∧ res.progress = some 100 := by
  refine ⟨(research_progress_monotone_and_completed_gives_100 reqPlain "r1" envCompleted).1,
    { id := "r1", query := "q", status := "completed", progress := some 100,
      content := some ("X" ++ metadataFooter "q" "Deep Research Pro Preview" "D" "1.0"),
      error := none }, rfl, ?_⟩
  exact (research_progress_monotone_and_completed_gives_100 reqPlain "r1" envCompleted).2
    _ rfl rfl

/-- C1 counterexample: a run whose first poll reports a remote failure ends
with status failed yet final progress 100, so progress 100 does not imply
completion. -/
theorem research_failed_run_has_progress_100 :
    ((research reqPlain "r1" envRemoteFail).result.map (·.status)) = some "failed" ∧
    ((research reqPlain "r1" envRemoteFail).result.map (·.progress)) = some (some 100) :=
  ⟨rfl, rfl⟩

/-- C5: a transport failure of the interaction-creation call makes the run
fail with the thrown, non-empty message, emits exactly start, progress 5 and
an error event carrying the message, and issues no status poll at all. -/
theorem create_error_fails_no_poll (req : ResearchRequest) (resultId msg : String)
    (env : RemoteEnv) (hc : env.create = .transportError msg) (hm : msg ≠ "") :
    (research req resultId env).events = [.start, .progress 5, .error msg] ∧
    (research req resultId env).result
      = some { id := resultId, query := req.query, status := "failed", error := some msg } ∧
    (∀ res, (research req resultId env).result = some res → res.error ≠ some "") ∧
    (research req resultId env).pollsAttempted = 0 := by
  refine ⟨by simp [research, hc], by simp [research, hc], ?_, by simp [research, hc]⟩
  intro res hres
  simp only [research, hc, Option.some.injEq] at hres
  rw [← hres]
  simpa using hm

/-- C5 witness: the HTTP 500 sample run. -/
theorem create_error_witness :
    (research reqPlain "r1" envCreateFail).events
      = [.start, .progress 5, .error "API error: 500 Internal Server Error"] ∧
    (research reqPlain "r1" envCreateFail).pollsAttempted = 0 := by
  have h := create_error_fails_no_poll reqPlain "r1" "API error: 500 Internal Server Error"
    envCreateFail rfl (by decide)
  exact ⟨h.1, h.2.2.2⟩

/-- C6: when every scripted poll answer is non-terminal and the cumulative
wall-clock time of the loop passes the 60-minute deadline, the run fails
with the fixed timeout message and never reaches completed. -/
theorem deadline_exceeded_fails_with_timeout_message
    (req : ResearchRequest) (resultId iid : String) (env : RemoteEnv)
    (hc : env.create = .ok iid)
    (hnt : ∀ s ∈ env.polls, nonTerminalStep s = true)
    (hd : MAX_RESEARCH_TIME ≤ env.createDelay + (env.polls.map stepDuration).sum) :
    (research req resultId env).result
      = some { id := resultId, query := req.query, status := "failed",
               progress := some 100, content := some "",
               error := some "Research timed out after 60 minutes" } ∧
    (∀ res, (research req resultId env).result = some res → res.status ≠ "completed") := by
  have hto := pollForCompletion_timeout env.polls env.createDelay 10 hnt hd
  have hmain : (research req resultId env).result
      = some { id := resultId, query := req.query, status := "failed",
               progress := some 100, content := some "",
               error := some "Research timed out after 60 minutes" } := by
    simp [research, hc, hto, timeoutOutcome]
  refine ⟨hmain, ?_⟩
  intro res hres
  rw [hmain, Option.some.injEq] at hres
  rw [← hres]
  simp

/-- C6 witness: a single slow poll answering `processing` pushes the loop
past the deadline. -/
theorem deadline_witness :
    (research reqPlain "r1" envDeadline).result
      = some { id := "r1", query := "q", status := "failed",
               progress := some 100, content := some "",
               error := some "Research timed out after 60 minutes" } :=
  (deadline_exceeded_fails_with_timeout_message reqPlain "r1" "int1" envDeadline rfl
    (by decide) (by decide)).1

/-- C7 (amended): when the poll completes with content A, the refinement flag
is set and the refinement call throws, the run still completes and the
content fed into the footer step is exactly A unchanged: the final content is
A followed by the standard metadata footer appended to every completed run. -/
theorem refine_throw_keeps_content_before_footer
    (req : ResearchRequest) (resultId iid A m : String) (env : RemoteEnv)
    (hc : env.create = .ok iid)
    (hflag : req.refineWithThinking = true)
    (hp : (pollForCompletion env.polls env.createDelay 10).result
      = some (.ok { status := "completed", content := A, error := none }))
    (hthrow : env.refine = .throws m) :
    (research req resultId env).result
      = some { id := resultId, query := req.query, status := "completed",
               progress := some 100,
               content := some (A ++ metadataFooter req.query "Gemini 3 Pro (Deep Think)"
                                  env.dateStr env.durationStr),
               error := none } := by
  simp [research, hc, hp, hflag, refineWithThinking, hthrow]

/-- C7 witness: the sample run completing with A whose refinement throws. -/
theorem refine_throw_witness :
    (research reqRefine "r1" envRefineThrow).result
      = some { id := "r1", query := "q", status := "completed",
               progress := some 100,
               content := some ("A" ++ metadataFooter "q" "Gemini 3 Pro (Deep Think)" "D" "7.0"),
               error := none } :=
  refine_throw_keeps_content_before_footer reqRefine "r1" "int1" "A" "network error"
    envRefineThrow rfl rfl rfl rfl

/-- C7 counterexample: in that run the final content is not the unchanged
string A - the metadata footer has been appended. -/
theorem refine_throw_final_content_not_A :
    ((research reqRefine "r1" envRefineThrow).result.map (·.content))
      = some (some ("A" ++ metadataFooter "q" "Gemini 3 Pro (Deep Think)" "D" "7.0")) ∧
    ("A" ++ metadataFooter "q" "Gemini 3 Pro (Deep Think)" "D" "7.0") ≠ "A" := by
  exact ⟨rfl, by decide⟩

/-- C3: with the API key configured and the registry entry processing, the
cancel route marks the entry cancelled in its synchronous first stage - a
stage that by construction receives no remote-cancel outcome, so the write
precedes the advisory remote attempt - and the final registry still holds
cancelled whether the remote call succeeds, resolves false, or throws. -/
theorem cancel_route_sets_cancelled_before_remote
    (r : Registry) (id : String) (res : ResearchResult)
    (agentPresent : Bool) (remote : CancelRemote)
    (hget : regGet r id = some res) (hst : res.status = "processing") :
    cancelCheckAndMark true r id
      = .proceed (regSet r id { res with status := "cancelled" })
                 { res with status := "cancelled" } ∧
    (postResearchCancel true r id agentPresent remote).1.success = true ∧
    (regGet (postResearchCancel true r id agentPresent remote).2 id).map (·.status)
      = some "cancelled" := by
  have h1 : cancelCheckAndMark true r id
      = .proceed (regSet r id { res with status := "cancelled" })
                 { res with status := "cancelled" } := by
    simp [cancelCheckAndMark, hget, hst]
  exact ⟨h1, by simp [postResearchCancel, h1], by simp [postResearchCancel, h1, regGet_regSet]⟩

/-- C3 witness: the processing sample job, for the remote-throw outcome. -/
theorem cancel_route_witness :
    (regGet (postResearchCancel true reg1 "j1" true (.throws "boom")).2 "j1").map (·.status)
      = some "cancelled" :=
  (cancel_route_sets_cancelled_before_remote reg1 "j1" procJob true (.throws "boom")
    rfl rfl).2.2

/-- C2 (code bug evaluation): the cancel route sets the entry to cancelled,
and the unconditional background completion write of `POST /api/research`
then overwrites that cancelled status with completed. -/
theorem cancel_then_background_write_overwrites_cancelled :
    (regGet (postResearchCancel true reg1 "j1" true .success).2 "j1").map (·.status)
      = some "cancelled" ∧
    (regGet (backgroundStoreResult (postResearchCancel true reg1 "j1" true .success).2 "j1"
        completedJob) "j1").map (·.status) = some "completed" :=
  ⟨rfl, rfl⟩

/-- C9: the delete route answers success whether or not the id exists,
deleting twice leaves the same registry as deleting once, and after deleting
an existing id a status read answers 404 NOT_FOUND. -/
theorem delete_idempotent_get_not_found (r : Registry) (id : String) :
    (deleteResearch r id).1.success = true ∧
    (deleteResearch (deleteResearch r id).2 id).1.success = true ∧
    (deleteResearch (deleteResearch r id).2 id).2 = (deleteResearch r id).2 ∧
    (regHas r id = true → (getResearch (deleteResearch r id).2 id).httpStatus = 404) := by
  by_cases h : regHas r id = true
  · have hdel : (deleteResearch r id).2 = regDelete r id := by simp [deleteResearch, h]
    have hnone : regGet (regDelete r id) id = none := regGet_regDelete r id
    have hhas2 : regHas (regDelete r id) id = false := by simp [regHas, hnone]
    refine ⟨by simp [deleteResearch, h], ?_, ?_, ?_⟩
    · rw [hdel]; simp [deleteResearch, hhas2]
    · rw [hdel]; simp [deleteResearch, hhas2, hdel]
    · intro _
      rw [hdel]
      simp [getResearch, hnone]
  · have h' : regHas r id = false := by simpa using h
    have hdel : (deleteResearch r id).2 = r := by simp [deleteResearch, h']
    refine ⟨by simp [deleteResearch, h'], ?_, ?_, fun hcon => absurd hcon h⟩
    · rw [hdel]; simp [deleteResearch, h']
    · rw [hdel]; exact hdel

/-- C9 witness: deleting the existing sample job makes the status read 404. -/
theorem delete_route_witness :
    (getResearch (deleteResearch reg1 "j1").2 "j1").httpStatus = 404 :=
  (delete_idempotent_get_not_found reg1 "j1").2.2.2 rfl

/-- C10: a poll that observes remote completion sets the content to the
truthy output fragments joined with a blank line, or to the fixed fallback
string when there are no such fragments, so a completed content is never the
empty string. -/
theorem completed_content_joined_or_fallback_nonempty
    (steps : List PollStep) (elapsed p : Nat) (o : PollOutcome)
    (h : (pollForCompletion steps elapsed p).result = some (.ok o))
    (hst : o.status = "completed") :
    o.content ≠ "" ∧
    ∃ step ∈ steps, ∃ st outs em, step.response = .ok st outs em ∧
      (st = "completed" ∨ st = "COMPLETED") ∧
      o.content = (if List.filter (fun s => !(s == "")) outs = []
                   then "Research completed but no content returned"
                   else String.intercalate "\n\n" (List.filter (fun s => !(s == "")) outs)) :=
  pollForCompletion_completed_content steps elapsed p o h hst

/-- C10 witness: the sample poll that completes with one fragment X. -/
theorem completed_content_witness :
    (PollOutcome.mk "completed" "X" none).content ≠ "" ∧
    ∃ step ∈ envCompleted.polls, ∃ st outs em, step.response = .ok st outs em ∧
      (st = "completed" ∨ st = "COMPLETED") ∧
      (PollOutcome.mk "completed" "X" none).content
        = (if List.filter (fun s => !(s == "")) outs = []
           then "Research completed but no content returned"
           else String.intercalate "\n\n" (List.filter (fun s => !(s == "")) outs)) :=
  completed_content_joined_or_fallback_nonempty envCompleted.polls 0 10
    ⟨"completed", "X", none⟩ rfl rfl

/-- C8 (amended): when the poll observes a remote-reported failure the
orchestrator records the job as failed with the error taken from the remote
error message or the default string (or the fixed timeout message for the
deadline case), but it emits no error event on this non-exception path. -/
theorem remote_failure_sets_error_without_event
    (req : ResearchRequest) (resultId iid : String) (env : RemoteEnv) (o : PollOutcome)
    (hc : env.create = .ok iid)
    (hp : (pollForCompletion env.polls env.createDelay 10).result = some (.ok o))
    (hst : o.status = "failed") :
    (research req resultId env).result
      = some { id := resultId, query := req.query, status := "failed",
               progress := some 100, content := some o.content, error := o.error } ∧
    (∃ m, o.error = some m) ∧
    (o = timeoutOutcome ∨
     ∃ step ∈ env.polls, ∃ st outs em, step.response = .ok st outs em ∧
       (st = "failed" ∨ st = "FAILED") ∧ o.error = some (em.getD "Research failed")) ∧
    (research req resultId env).events.any isErrorEv = false := by
  have hchar := pollForCompletion_failed_error env.polls env.createDelay 10 o hp hst
  have hnc : ¬(o.status = "completed" ∧ req.refineWithThinking = true) := by
    intro hcon
    rw [hst] at hcon
    simp at hcon
  refine ⟨?_, ?_, ?_, ?_⟩
  · simp [research, hc, hp, hst, hnc]
  · rcases hchar with h | ⟨step, _, st, outs, em, _, _, herr, _⟩
    · rw [h]
      exact ⟨_, rfl⟩
    · exact ⟨_, herr⟩
  · rcases hchar with h | ⟨step, hmem, st, outs, em, hr, hterm, herr, _⟩
    · left; exact h
    · right; exact ⟨step, hmem, st, outs, em, hr, hterm, herr⟩
  · have hev : (research req resultId env).events
        = [.start, .progress 5, .progress 10]
          ++ (pollForCompletion env.polls env.createDelay 10).events := by
      simp [research, hc, hp, hst, hnc]
    rcases pollForCompletion_classify env.polls env.createDelay 10 with
      ⟨ps, hpev, _⟩ | ⟨ps, c, _, hcres⟩
    · rw [hev, hpev]
      simp [isErrorEv, any_isErrorEv_map_progress]
    · rw [hp] at hcres
      simp only [Option.some.injEq, Except.ok.injEq] at hcres
      rw [hcres] at hst
      simp at hst

/-- C8 counterexample: the remote-failure sample run sets the error but its
full event trace contains no error event. -/
theorem remote_failure_emits_no_error_event_example :
    (research reqPlain "r1" envRemoteFail).events
      = [.start, .progress 5, .progress 10, .progress 20] ∧
    (research reqPlain "r1" envRemoteFail).events.any isErrorEv = false ∧
    ((research reqPlain "r1" envRemoteFail).result.map (·.error)) = some (some "boom") :=
  ⟨rfl, rfl, rfl⟩

/-- C8 witness: the remote-failure sample run, through the general theorem. -/
theorem remote_failure_witness :
    (research reqPlain "r1" envRemoteFail).result
      = some { id := "r1", query := "q", status := "failed",
               progress := some 100, content := some "", error := some "boom" } :=
  (remote_failure_sets_error_without_event reqPlain "r1" "int1" envRemoteFail
    ⟨"failed", "", some "boom"⟩ rfl rfl rfl).1

theorem research_events_shape (req : ResearchRequest) (resultId : String) (env : RemoteEnv) :
    (∃ ps : List Nat, (research req resultId env).events = .start :: ps.map REvent.progress) ∨
    (∃ ps : List Nat, ∃ m, (research req resultId env).events
       = .start :: (ps.map REvent.progress ++ [.error m])) ∨
    (∃ ps : List Nat, ∃ c, (research req resultId env).events
       = .start :: (ps.map REvent.progress ++ [.content c, .complete]) ∧ ps ≠ []) ∨
    (req.refineWithThinking = true ∧
     ∃ ps : List Nat, ∃ c rext, (research req resultId env).events
       = .start :: (ps.map REvent.progress ++ .content c :: .complete :: rext) ∧
       (rext = [.progress 95] ∨ ∃ c2, rext = [.progress 95, .content c2])) := by
  cases hc : env.create with
  | transportError msg =>
    right; left
    exact ⟨[5], msg, by simp [research, hc]⟩
  | ok iid =>
    rcases pollForCompletion_classify env.polls env.createDelay 10 with
      ⟨ps, hpev, hpfail⟩ | ⟨ps, c, hpev, hpres⟩
    · cases hres : (pollForCompletion env.polls env.createDelay 10).result with
      | none =>
        left
        refine ⟨5 :: 10 :: ps, ?_⟩
        have he : (research req resultId env).events
            = [.start, .progress 5, .progress 10]
              ++ (pollForCompletion env.polls env.createDelay 10).events := by
          simp [research, hc, hres]
        rw [he, hpev]
        simp
      | some exc =>
        cases exc with
        | error msg =>
          right; left
          refine ⟨5 :: 10 :: ps, msg, ?_⟩
          have he : (research req resultId env).events
              = [.start, .progress 5, .progress 10]
                ++ (pollForCompletion env.polls env.createDelay 10).events ++ [.error msg] := by
            simp [research, hc, hres]
          rw [he, hpev]
          simp
        | ok o =>
          have hof : o.status = "failed" := hpfail o hres
          have hnc : ¬(o.status = "completed" ∧ req.refineWithThinking = true) := by
            intro hcon
            rw [hof] at hcon
            simp at hcon
          left
          refine ⟨5 :: 10 :: ps, ?_⟩
          have he : (research req resultId env).events
              = [.start, .progress 5, .progress 10]
                ++ (pollForCompletion env.polls env.createDelay 10).events := by
            simp [research, hc, hres, hnc]
          rw [he, hpev]
          simp
    · -- classification says the poll returned a completed outcome
      have hres := hpres
      by_cases hflag : req.refineWithThinking = true
      · right; right; right
        refine ⟨hflag, 5 :: 10 :: ps, c, (refineWithThinking c env.refine).1, ?_, ?_⟩
        · have he : (research req resultId env).events
              = [.start, .progress 5, .progress 10]
                ++ (pollForCompletion env.polls env.createDelay 10).events
                ++ (refineWithThinking c env.refine).1 := by
            simp [research, hc, hres, hflag]
          rw [he, hpev]
          simp
        · exact refineWithThinking_events_shape c env.refine
      · right; right; left
        have hnc : ¬(PollOutcome.status { status := "completed", content := c, error := none }
            = "completed" ∧ req.refineWithThinking = true) := by
          intro hcon
          exact hflag hcon.2
        refine ⟨5 :: 10 :: ps, c, ?_, by simp⟩
        have he : (research req resultId env).events
            = [.start, .progress 5, .progress 10]
              ++ (pollForCompletion env.polls env.createDelay 10).events := by
          simp [research, hc, hres, hnc, hflag]
        rw [he, hpev]
        simp

/-- C4 (amended): within one run, every trace begins with start; without the
refinement flag nothing at all follows the first complete event, and a trace
holding a complete event is exactly start, then one or more progress events,
then content and complete; a trace holding an error event is exactly start,
then zero or more progress events, then that error event - error events
arise only from thrown exceptions, so content and complete never share a
trace with error.  With the refinement flag set, a progress 95 event and
possibly a content event follow complete, which the counterexample
exhibits. -/
theorem research_event_order_classified
    (req : ResearchRequest) (resultId : String) (env : RemoteEnv) :
    (research req resultId env).events.head? = some .start ∧
    (req.refineWithThinking = false →
      eventsAfterFirstComplete (research req resultId env).events = []) ∧
    ((research req resultId env).events.any isErrorEv = true →
      ∃ ps : List Nat, ∃ m, (research req resultId env).events
        = .start :: (ps.map REvent.progress ++ [.error m])) ∧
    (req.refineWithThinking = false →
      (research req resultId env).events.any isCompleteEv = true →
      ∃ ps : List Nat, ∃ c, (research req resultId env).events
        = .start :: (ps.map REvent.progress ++ [.content c, .complete]) ∧ ps ≠ []) ∧
    ((research req resultId env).events.any isCompleteEv = true →
      (research req resultId env).events.any isErrorEv = false) := by
  rcases research_events_shape req resultId env with
    ⟨ps, he⟩ | ⟨ps, m, he⟩ | ⟨ps, c, he, hps⟩ | ⟨hflag, ps, c, rext, he, hrext⟩
  · have hnoc : (research req resultId env).events.any isCompleteEv = false := by
      rw [he]
      simp [isCompleteEv, any_isCompleteEv_map_progress]
    have hnoe : (research req resultId env).events.any isErrorEv = false := by
      rw [he]
      simp [isErrorEv, any_isErrorEv_map_progress]
    refine ⟨by rw [he]; rfl, ?_, ?_, ?_, ?_⟩
    · intro _
      exact eventsAfterFirstComplete_of_no_complete _ hnoc
    · intro hcon
      simp [hnoe] at hcon
    · intro _ hcon
      simp [hnoc] at hcon
    · intro hcon
      simp [hnoc] at hcon
  · have hnoc : (research req resultId env).events.any isCompleteEv = false := by
      rw [he]
      simp [isCompleteEv, any_isCompleteEv_map_progress]
    refine ⟨by rw [he]; rfl, ?_, fun _ => ⟨ps, m, he⟩, ?_, ?_⟩
    · intro _
      exact eventsAfterFirstComplete_of_no_complete _ hnoc
    · intro _ hcon
      simp [hnoc] at hcon
    · intro hcon
      simp [hnoc] at hcon
  · have hnoe : (research req resultId env).events.any isErrorEv = false := by
      rw [he]
      simp [isErrorEv, any_isErrorEv_map_progress]
    refine ⟨by rw [he]; rfl, ?_, ?_, fun _ _ => ⟨ps, c, he, hps⟩, fun _ => hnoe⟩
    · intro _
      have hsplit : (research req resultId env).events
          = (.start :: (ps.map REvent.progress ++ [.content c])) ++ .complete :: [] := by
        rw [he]
        simp
      rw [hsplit]
      exact eventsAfterFirstComplete_append_tail _ _
        (by simp [isCompleteEv, any_isCompleteEv_map_progress])
    · intro hcon
      simp [hnoe] at hcon
  · have hnoe : (research req resultId env).events.any isErrorEv = false := by
      rw [he]
      rcases hrext with hr | ⟨c2, hr⟩ <;>
        simp [hr, isErrorEv, any_isErrorEv_map_progress]
    refine ⟨by rw [he]; rfl, ?_, ?_, ?_, fun _ => hnoe⟩
    · intro h0
      rw [h0] at hflag
      cases hflag
    · intro hcon
      simp [hnoe] at hcon
    · intro h0
      rw [h0] at hflag
      cases hflag

/-- C4 counterexample: with the refinement flag set, the sample run emits a
progress 95 event and a content event after the complete event of the same
job. -/
theorem refine_run_emits_progress_after_complete :
    (research reqRefine "r1" envRefineOk).events
      = [.start, .progress 5, .progress 10, .progress 20, .content "X", .complete,
         .progress 95, .content "R"] ∧
    eventsAfterFirstComplete (research reqRefine "r1" envRefineOk).events
      = [.progress 95, .content "R"] ∧
    (eventsAfterFirstComplete (research reqRefine "r1" envRefineOk).events).any isProgressEv
      = true :=
  ⟨rfl, rfl, rfl⟩

/-- C4 witness: the plain completed sample run has nothing after complete and
matches the success grammar with a non-empty progress block. -/
theorem research_event_order_witness :
    eventsAfterFirstComplete (research reqPlain "r1" envCompleted).events = [] ∧
    ∃ ps : List Nat, ∃ c, (research reqPlain "r1" envCompleted).events
      = .start :: (ps.map REvent.progress ++ [.content c, .complete]) ∧ ps ≠ [] := by
  have h := research_event_order_classified reqPlain "r1" envCompleted
  exact ⟨h.2.1 rfl, h.2.2.2.1 rfl rfl⟩
